import Mathlib

/-!
Verification of the quote-ingestion pipeline of the Pizarras multi-bolsas API.

The Python source is shallowly embedded: Python floats are modelled as exact
rationals (`ℚ`), Python strings as `String`/`List Char`, `None` as `Option.none`,
and raised exceptions as `Except.error`.  External collaborators (the HTTP
client, the headless browser, the Oracle store and the `blake2b` library hash)
are modelled as oracles or abstract state, following the contracts the code
relies on.
-/

namespace Pizarras

/-- Characters stripped by Python `str.strip()` and matched by the regex
class `\s` (ASCII fragment; the pages processed here contain no exotic
Unicode whitespace except NBSP/thin spaces, which the code replaces
explicitly before stripping). -/
def pySpace (c : Char) : Bool :=
  c = ' ' || c = '\t' || c = '\n' || c = '\r' || c = '\x0b' || c = '\x0c'

/-- Python `str.strip()` on a character list. -/
def pyStrip (s : List Char) : List Char :=
  ((s.dropWhile pySpace).reverse.dropWhile pySpace).reverse

/-- Python `str.lower()` restricted to the characters that actually occur in
the scraped labels: ASCII letters and the Spanish accented vowels / eñe. -/
def pyLowerChar (c : Char) : Char :=
  if 'A' ≤ c && c ≤ 'Z' then Char.ofNat (c.toNat + 32)
  else if c = 'Á' then 'á'
  else if c = 'É' then 'é'
  else if c = 'Í' then 'í'
  else if c = 'Ó' then 'ó'
  else if c = 'Ú' then 'ú'
  else if c = 'Ü' then 'ü'
  else if c = 'Ñ' then 'ñ'
  else c

/-- Python `str.lower()` on a character list. -/
def pyLower (s : List Char) : List Char :=
  s.map pyLowerChar

/-- Python `pat in s` substring test on character lists. -/
def containsSeq (pat : List Char) : List Char → Bool
  | [] => pat.isEmpty
  | c :: rest => pat.isPrefixOf (c :: rest) || containsSeq pat rest

/-- Worker for `squeezeWS`: `prevSpace` records whether the previous character
belonged to a whitespace run already emitted as a single space. -/
def squeezeGo (prevSpace : Bool) : List Char → List Char
  | [] => []
  | c :: rest =>
    if pySpace c then
      if prevSpace then squeezeGo true rest
      else ' ' :: squeezeGo true rest
    else c :: squeezeGo false rest

/-- Python `re.sub(r"\s+", " ", s)`: every maximal run of whitespace becomes
a single space. -/
def squeezeWS (s : List Char) : List Char :=
  squeezeGo false s

/-- All characters are decimal digits. -/
def digitsOnly (cs : List Char) : Bool :=
  cs.all Char.isDigit

/-- Numeric value of a digit string (most significant first). -/
def digitsVal (cs : List Char) : Nat :=
  cs.foldl (fun a c => 10 * a + (c.toNat - 48)) 0

/-- Python `float(s)` on an unsigned candidate: digits with at most one
decimal point, at least one digit overall.  Returns `none` where `float`
raises `ValueError`.  Floats are modelled as exact rationals. -/
def pyFloatPos (cs : List Char) : Option ℚ :=
  match cs.splitOn '.' with
  | [ip] => if ip ≠ [] ∧ digitsOnly ip then some (mkRat (digitsVal ip) 1) else none
  | [ip, fp] =>
    if digitsOnly ip ∧ digitsOnly fp ∧ (ip ≠ [] ∨ fp ≠ []) then
      some (mkRat (digitsVal ip * 10 ^ fp.length + digitsVal fp) (10 ^ fp.length))
    else none
  | _ => none

/-- Python `float(s)` with an optional leading minus sign. -/
def pyFloat (cs : List Char) : Option ℚ :=
  match cs with
  | '-' :: rest => (pyFloatPos rest).map Neg.neg
  | _ => pyFloatPos cs

/-- `parse_price` from `app/main_backup01102025.py`: ES-locale price text to
float; `None` for the "not quoted" tokens and unparseable text. -/
def parse_price (text : String) : Option ℚ :=
  if text.data = [] then none
  else
    let s := pyLower (pyStrip text.data)
    if containsSeq "s/c".data s = true ∨ s = "-".data ∨ s = "sc".data then none
    else
      let s1 := s.filter (fun c => c.isDigit || c = '.' || c = ',' || c = '-')
      if s1 = [] then none
      else
        let s2 := s1.filter (fun c => c ≠ '.')
        let s3 := s2.map (fun c => if c = ',' then '.' else c)
        pyFloat s3

/-- `unicodedata.normalize("NFD", ·)` followed by dropping combining marks,
modelled character-wise for the Latin letters occurring in section labels
(NFD decomposes an accented letter into its base letter plus a mark of
category Mn, which is then dropped). -/
def stripAccentChar (c : Char) : Char :=
  if c = 'á' then 'a'
  else if c = 'é' then 'e'
  else if c = 'í' then 'i'
  else if c = 'ó' then 'o'
  else if c = 'ú' then 'u'
  else if c = 'ü' then 'u'
  else if c = 'ñ' then 'n'
  else if c = 'Á' then 'A'
  else if c = 'É' then 'E'
  else if c = 'Í' then 'I'
  else if c = 'Ó' then 'O'
  else if c = 'Ú' then 'U'
  else if c = 'Ü' then 'U'
  else if c = 'Ñ' then 'N'
  else c

/-- `_strip_accents` from `app/main_backup16102025OKDef9.py`. -/
def _strip_accents (s : List Char) : List Char :=
  s.map stripAccentChar

/-- Aliases recognized for Rosario (matched on the lowered input, accents kept). -/
def rosarioAliases : List (List Char) :=
  ["rosario".data, "ros".data, "ros-spot".data]

/-- Aliases recognized for Bahía Blanca (matched accent-stripped). -/
def bahiaAliases : List (List Char) :=
  ["bahia".data, "bahia blanca".data, "bbca".data, "bb".data,
   "bahia-blanca".data, "bahia_blanca".data]

/-- Aliases recognized for Córdoba. -/
def cordobaAliases : List (List Char) :=
  ["cordoba".data, "cba".data, "cor".data, "cb".data]

/-- Aliases recognized for Quequén. -/
def quequenAliases : List (List Char) :=
  ["quequen".data, "qqn".data, "que".data]

/-- Aliases recognized for Dársena. -/
def darsenaAliases : List (List Char) :=
  ["darsena".data, "dar".data]

/-- Aliases recognized for the "Locales" section. -/
def localesAliases : List (List Char) :=
  ["locales".data, "local".data, "loc".data, "mercado local".data, "mercadolocal".data]

/-- `normalize_plaza` from `app/main_backup16102025OKDef9.py`: returns the
normalized section key and its HTML title label. -/
def normalize_plaza (p : String) : String × String :=
  let p_in := pyLower (pyStrip p.data)
  let p_na := _strip_accents p_in
  if p_in ∈ rosarioAliases then ("rosario", "Rosario")
  else if p_na ∈ bahiaAliases then ("bahia", "Bahía Blanca")
  else if p_na ∈ cordobaAliases then ("cordoba", "Córdoba")
  else if p_na ∈ quequenAliases then ("quequen", "Quequén")
  else if p_na ∈ darsenaAliases then ("darsena", "Dársena")
  else if p_na ∈ localesAliases then ("locales", "Locales")
  else ("rosario", "Rosario")

/-- The six known (section, label) pairs. -/
def plazaPairs : List (String × String) :=
  [("rosario", "Rosario"), ("bahia", "Bahía Blanca"), ("cordoba", "Córdoba"),
   ("quequen", "Quequén"), ("darsena", "Dársena"), ("locales", "Locales")]

/-- C10: section-name normalization is total and closed over the six known
sections: every input string (any casing/accents, including the empty string)
maps to one of the six (section, label) pairs, and any input matching no
recognized alias — the empty string among them — silently maps to
("rosario", "Rosario"). -/
theorem normalize_plaza_total_closed :
    (∀ p : String, normalize_plaza p ∈ plazaPairs) ∧
    normalize_plaza "" = ("rosario", "Rosario") ∧
    (∀ p : String,
      pyLower (pyStrip p.data) ∉ rosarioAliases →
      _strip_accents (pyLower (pyStrip p.data)) ∉ bahiaAliases →
      _strip_accents (pyLower (pyStrip p.data)) ∉ cordobaAliases →
      _strip_accents (pyLower (pyStrip p.data)) ∉ quequenAliases →
      _strip_accents (pyLower (pyStrip p.data)) ∉ darsenaAliases →
      _strip_accents (pyLower (pyStrip p.data)) ∉ localesAliases →
      normalize_plaza p = ("rosario", "Rosario")) := by
  refine ⟨?_, by decide, ?_⟩
  · intro p
    dsimp only [normalize_plaza]
    split_ifs <;> decide
  · intro p h1 h2 h3 h4 h5 h6
    dsimp only [normalize_plaza]
    rw [if_neg h1, if_neg h2, if_neg h3, if_neg h4, if_neg h5, if_neg h6]

/-- C10 witness: the unrecognized name "Santa Fe" (and, via the theorem's
second conjunct, the empty string) falls back to Rosario; the accented,
mixed-case alias "BAHÍA BLANCA" maps to the Bahía Blanca pair. -/
theorem normalize_plaza_total_closed_witness :
    normalize_plaza "Santa Fe" = ("rosario", "Rosario") ∧
    normalize_plaza "BAHÍA BLANCA" ∈ plazaPairs ∧
    normalize_plaza "BAHÍA BLANCA" = ("bahia", "Bahía Blanca") := by
  refine ⟨?_, normalize_plaza_total_closed.1 "BAHÍA BLANCA", by decide⟩
  exact normalize_plaza_total_closed.2.2 "Santa Fe" (by decide) (by decide)
    (by decide) (by decide) (by decide) (by decide)

/-- NBSP, thin space and narrow NBSP: the "odd spaces" `_clean_num` replaces. -/
def nbspChar : Char := Char.ofNat 160

/-- U+2009 thin space. -/
def thinSpaceChar : Char := Char.ofNat 8201

/-- U+202F narrow no-break space. -/
def narrowNbspChar : Char := Char.ofNat 8239

/-- `_clean_num` from `app/main_backup16102025OKDef9.py`: the later variant of
the price parser (exact not-quoted token list, and a period is kept as the
decimal separator when no comma is present). -/
def _clean_num (val : String) : Option ℚ :=
  let s := pyStrip val.data
  let s_low := pyLower s
  if s_low = "s/c".data ∨ s_low = "sc".data ∨ s_low = "s / c".data ∨
      s_low = "-".data ∨ s_low = [] then none
  else
    let t0 := s.map (fun c => if c = nbspChar ∨ c = thinSpaceChar ∨ c = narrowNbspChar then ' ' else c)
    let t1 := squeezeWS t0
    let t2 := t1.filter (fun c => c.isDigit || c = ',' || c = '.' || c = '-')
    if t2.contains ',' ∧ t2.contains '.' then
      pyFloat ((t2.filter (fun c => c ≠ '.')).map (fun c => if c = ',' then '.' else c))
    else if t2.contains ',' then
      pyFloat (t2.map (fun c => if c = ',' then '.' else c))
    else
      pyFloat t2

/-- The not-quoted spellings of the claim, after strip/lower. -/
def notQuotedTokens : List (List Char) :=
  ["s/c".data, "sc".data, "-".data, []]

/-- Python `float(s)` as the fallible operation it is in the source: it either
returns a value or raises `ValueError`. -/
def float_exc (cs : List Char) : Except String ℚ :=
  match pyFloat cs with
  | some q => Except.ok q
  | none => Except.error "ValueError"

/-- The `try: return float(s) / except ValueError: return None` pattern shared
by both parsers: the only exception the body can raise is caught. -/
def catchValueError (r : Except String ℚ) : Except String (Option ℚ) :=
  match r with
  | Except.ok v => Except.ok (some v)
  | Except.error _ => Except.ok none

/-- `parse_price` with exception propagation made explicit: every step of the
body in the exception monad, the final `try/except ValueError` as a handler. -/
def parse_price_exc (text : String) : Except String (Option ℚ) :=
  if text.data = [] then Except.ok none
  else
    let s := pyLower (pyStrip text.data)
    if containsSeq "s/c".data s = true ∨ s = "-".data ∨ s = "sc".data then Except.ok none
    else
      let s1 := s.filter (fun c => c.isDigit || c = '.' || c = ',' || c = '-')
      if s1 = [] then Except.ok none
      else
        let s2 := s1.filter (fun c => c ≠ '.')
        let s3 := s2.map (fun c => if c = ',' then '.' else c)
        catchValueError (float_exc s3)

/-- `_clean_num` with exception propagation made explicit. -/
def _clean_num_exc (val : String) : Except String (Option ℚ) :=
  let s := pyStrip val.data
  let s_low := pyLower s
  if s_low = "s/c".data ∨ s_low = "sc".data ∨ s_low = "s / c".data ∨
      s_low = "-".data ∨ s_low = [] then Except.ok none
  else
    let t0 := s.map (fun c => if c = nbspChar ∨ c = thinSpaceChar ∨ c = narrowNbspChar then ' ' else c)
    let t1 := squeezeWS t0
    let t2 := t1.filter (fun c => c.isDigit || c = ',' || c = '.' || c = '-')
    if t2.contains ',' ∧ t2.contains '.' then
      catchValueError (float_exc ((t2.filter (fun c => c ≠ '.')).map (fun c => if c = ',' then '.' else c)))
    else if t2.contains ',' then
      catchValueError (float_exc (t2.map (fun c => if c = ',' then '.' else c)))
    else
      catchValueError (float_exc t2)

/-- C3: the price parser maps every not-quoted token ("s/c", "sc", "-", empty,
case-insensitively) to null, and parses the representative inputs
"1.234,56" → 1234.56, "480,00" → 480.0, "480.000,00" → 480000.0,
"0,00" → 0.0, "-" → null, "" → null.  Proved for both variants of the
parser (`parse_price` and `_clean_num`). -/
theorem parse_price_not_quoted_and_vectors :
    (∀ s : String, pyLower (pyStrip s.data) ∈ notQuotedTokens →
      parse_price s = none ∧ _clean_num s = none) ∧
    parse_price "1.234,56" = some (mkRat 123456 100) ∧
    parse_price "480,00" = some (mkRat 480 1) ∧
    parse_price "480.000,00" = some (mkRat 480000 1) ∧
    parse_price "0,00" = some (mkRat 0 1) ∧
    parse_price "-" = none ∧
    parse_price "" = none ∧
    _clean_num "1.234,56" = some (mkRat 123456 100) ∧
    _clean_num "480,00" = some (mkRat 480 1) ∧
    _clean_num "480.000,00" = some (mkRat 480000 1) ∧
    _clean_num "0,00" = some (mkRat 0 1) ∧
    _clean_num "-" = none ∧
    _clean_num "" = none := by
  constructor
  · intro s h
    simp only [notQuotedTokens, List.mem_cons, List.not_mem_nil, or_false] at h
    constructor
    · by_cases hd : s.data = []
      · simp [parse_price, hd]
      · rcases h with h1 | h1 | h1 | h1 <;>
          simp [parse_price, hd, h1, containsSeq, List.isPrefixOf]
    · rcases h with h1 | h1 | h1 | h1 <;> simp [_clean_num, h1]
  · refine ⟨by decide, by decide, by decide, by decide, by decide, by decide,
      by decide, by decide, by decide, by decide, by decide, by decide⟩

/-- C3 witness: concrete instantiation at the mixed-case token "S/C". -/
theorem parse_price_not_quoted_witness :
    pyLower (pyStrip "S/C".data) ∈ notQuotedTokens ∧
      parse_price "S/C" = none ∧ _clean_num "S/C" = none := by
  refine ⟨by decide, ?_⟩
  have h := parse_price_not_quoted_and_vectors.1 "S/C" (by decide)
  exact h

/-- C9: both price parsers are total: run with explicit exception propagation,
every input yields `Except.ok` (a float or null); the `ValueError` that
Python's `float` can raise is always caught, so unparseable text degrades to
null rather than propagating an exception. -/
theorem parse_price_total :
    (∀ s : String, parse_price_exc s = Except.ok (parse_price s)) ∧
    (∀ s : String, _clean_num_exc s = Except.ok (_clean_num s)) := by
  have hcatch : ∀ cs : List Char,
      catchValueError (float_exc cs) = Except.ok (pyFloat cs) := by
    intro cs
    unfold catchValueError float_exc
    cases pyFloat cs <;> rfl
  constructor
  · intro s
    dsimp only [parse_price_exc, parse_price]
    simp only [hcatch, apply_ite (Except.ok : Option ℚ → Except String (Option ℚ))]
  · intro s
    dsimp only [_clean_num_exc, _clean_num]
    simp only [hcatch, apply_ite (Except.ok : Option ℚ → Except String (Option ℚ))]

/-- The currency of a raw quote; the data model restricts it to ARS or USD. -/
inductive Currency
  | ARS
  | USD
deriving DecidableEq, Repr

/-- A raw quote row as produced by the scraper (`producto`, `precio`,
`moneda`, `anterior`, `variacion`); the price is a float-or-null. -/
structure Item where
  producto : String
  precio : Option ℚ
  moneda : Currency
  anterior : String
  variacion : String
deriving DecidableEq, Repr

/-- `PRODUCT_ORDER` from `app/main_backup01102025.py`. -/
def PRODUCT_ORDER : List String :=
  ["Trigo", "Maiz", "Soja", "Girasol", "Sorgo", "Cebada Forrajera"]

/-- `PRODUCTS_BASE` from `app/main_backup01102025.py`. -/
def PRODUCTS_BASE : List String :=
  ["Trigo", "Maiz", "Soja", "Girasol", "Sorgo"]

/-- Fueled worker for `pyReplaceAll`; the fuel starts at the list length, an
upper bound on the number of recursion steps, making the recursion
structural (the pattern is always nonempty where this is used). -/
def replaceGo (pat rep : List Char) : Nat → List Char → List Char
  | _, [] => []
  | 0, l => l
  | Nat.succ fuel, c :: rest =>
    if pat.isPrefixOf (c :: rest) then
      rep ++ replaceGo pat rep fuel ((c :: rest).drop pat.length)
    else c :: replaceGo pat rep fuel rest

/-- Python `s.replace(pat, rep)`: replace each non-overlapping occurrence,
scanning left to right. -/
def pyReplaceAll (pat rep s : List Char) : List Char :=
  replaceGo pat rep s.length s

/-- `normalize_product_name` from `app/main_backup01102025.py`:
strip, rewrite "Maíz" to "Maiz", collapse whitespace runs. -/
def normalize_product_name (name : String) : String :=
  if name.data = [] then ""
  else
    let n1 := pyStrip name.data
    let n2 := pyReplaceAll "Maíz".data "Maiz".data n1
    String.mk (squeezeWS n2)

/-- The index a canonical product name receives in `sort_key`
(999 when the product is not in `PRODUCT_ORDER`). -/
def prodIdx (prod : String) : Nat :=
  match PRODUCT_ORDER.findIdx? (fun x => x = prod) with
  | some i => i
  | none => 999

/-- `mon_rank` from `sort_key`: 0 for ARS, 1 otherwise. -/
def monRank (c : Currency) : Nat :=
  match c with
  | Currency.ARS => 0
  | Currency.USD => 1

/-- The deduplication key of `dedupe_and_sort`:
(normalized product, currency). -/
def itemKey (it : Item) : String × Currency :=
  (normalize_product_name it.producto, it.moneda)

/-- The tuple `sort_key(it) = (idx, mon_rank, prod)` of the source, encoded
as a flat `List Nat` compared lexicographically (the two leading positions
always exist, and list-lex on the character codes coincides with Python's
string comparison). -/
def keyEnc (k : String × Currency) : List Nat :=
  prodIdx k.1 :: monRank k.2 :: k.1.data.map Char.toNat

/-- `sort_key` of an item. -/
def sortKeyN (it : Item) : List Nat :=
  keyEnc (itemKey it)

/-- Strict lexicographic order on encoded sort keys. -/
def keyLt (x y : List Nat) : Prop :=
  List.Lex (· < ·) x y

/-- Non-strict order on encoded sort keys. -/
def keyLE (x y : List Nat) : Prop :=
  ¬ keyLt y x

instance keyLt.decRel : DecidableRel keyLt := by
  unfold keyLt
  infer_instance

instance keyLE.decRel : DecidableRel keyLE := by
  unfold keyLE
  infer_instance

/-- The total preorder `sorted(...)` uses on items: compare `sort_key`s. -/
def itemLE (a b : Item) : Prop :=
  keyLE (sortKeyN a) (sortKeyN b)

instance itemLE.decRel : DecidableRel itemLE := by
  unfold itemLE
  infer_instance

/-- One step of the dedupe dictionary: Python `keep[key]` assignment
semantics — replace the value in place if the key exists (only when the
stored price is null and the new one is not), else append at the end. -/
def keepUpd (k : String × Currency) (it : Item) :
    List ((String × Currency) × Item) → List ((String × Currency) × Item)
  | [] => [(k, it)]
  | (k1, v) :: rest =>
    if k1 = k then
      (k1, if v.precio = none ∧ it.precio ≠ none then it else v) :: rest
    else (k1, v) :: keepUpd k it rest

/-- The dedupe dictionary built by the `for it in items` loop. -/
def keepFold (l : List Item) : List ((String × Currency) × Item) :=
  l.foldl (fun m it => keepUpd (itemKey it) it m) []

/-- The `only_base` filter at the head of `dedupe_and_sort`. -/
def baseFilter (ob : Bool) (l : List Item) : List Item :=
  if ob then l.filter (fun it => normalize_product_name it.producto ∈ PRODUCTS_BASE)
  else l

/-- `dedupe_and_sort` from `app/main_backup01102025.py`: filter to base
products when requested, deduplicate by (product, currency) preferring
non-null prices, sort by `sort_key` (Python's `sorted` is stable, as is
`insertionSort`).  The final NaN/∞-to-null scrub is the identity here:
non-finite values do not exist in the exact-rational model of floats. -/
def dedupe_and_sort (items : List Item) (only_base : Bool) : List Item :=
  let filtered := baseFilter only_base items
  let keep := keepFold filtered
  List.insertionSort itemLE (keep.map Prod.snd)

/-- First lookup in the dedupe dictionary. -/
def lookupA (k : String × Currency) : List ((String × Currency) × Item) → Option Item
  | [] => none
  | (k1, v) :: rest => if k1 = k then some v else lookupA k rest

/-- The row that survives deduplication for a collision group: the first row
carrying a non-null price if one exists, otherwise the first-seen row. -/
def survivor (g : List Item) : Option Item :=
  match g.find? (fun it => it.precio.isSome) with
  | some w => some w
  | none => g.head?

theorem keyLE_total (x y : List Nat) : keyLE x y ∨ keyLE y x := by
  unfold keyLE keyLt
  by_cases h : List.Lex (· < ·) y x
  · right
    intro h2
    exact asymm h h2
  · left
    exact h

theorem lexNat_trichot (x y : List Nat) :
    List.Lex (· < ·) x y ∨ x = y ∨ List.Lex (· < ·) y x :=
  trichotomous x y

theorem keyLE_trans {x y z : List Nat} (h1 : keyLE x y) (h2 : keyLE y z) : keyLE x z := by
  unfold keyLE keyLt at h1 h2 ⊢
  intro h3
  rcases lexNat_trichot x y with h4 | h4 | h4
  · exact h2 (Trans.trans h3 h4)
  · exact h2 (h4 ▸ h3)
  · exact h1 h4

theorem keyLE_antisymm {x y : List Nat} (h1 : keyLE x y) (h2 : keyLE y x) : x = y := by
  unfold keyLE keyLt at h1 h2
  rcases lexNat_trichot x y with h4 | h4 | h4
  · exact absurd h4 h2
  · exact h4
  · exact absurd h4 h1

instance : IsTotal Item itemLE :=
  ⟨fun a b => keyLE_total _ _⟩

instance : IsTrans Item itemLE :=
  ⟨fun _ _ _ h1 h2 => keyLE_trans h1 h2⟩

instance : IsTotal (List Nat) keyLE :=
  ⟨keyLE_total⟩

instance : IsTrans (List Nat) keyLE :=
  ⟨fun _ _ _ h1 h2 => keyLE_trans h1 h2⟩

instance : IsAntisymm (List Nat) keyLE :=
  ⟨fun _ _ h1 h2 => keyLE_antisymm h1 h2⟩

theorem charToNat_injective : Function.Injective Char.toNat := by
  intro a b h
  exact Char.ext (UInt32.ext h)

theorem keyEnc_injective : Function.Injective keyEnc := by
  rintro ⟨n, c⟩ ⟨n', c'⟩ h
  simp only [keyEnc, List.cons.injEq] at h
  obtain ⟨-, hrank, hname⟩ := h
  have hn : n = n' := by
    apply String.ext
    exact List.map_injective_iff.mpr charToNat_injective hname
  have hc : c = c' := by
    cases c <;> cases c' <;> simp [monRank] at hrank ⊢
  exact Prod.ext hn hc

theorem keepUpd_pairs {k : String × Currency} {it : Item} (hk : k = itemKey it) :
    ∀ m : List ((String × Currency) × Item), (∀ p ∈ m, p.1 = itemKey p.2) →
      ∀ p ∈ keepUpd k it m, p.1 = itemKey p.2 := by
  intro m
  induction m with
  | nil =>
    intro _ p hp
    simp only [keepUpd, List.mem_singleton] at hp
    subst hp
    exact hk
  | cons hd rest ih =>
    obtain ⟨k1, v⟩ := hd
    intro h p hp
    by_cases hkk : k1 = k
    · simp only [keepUpd, if_pos hkk, List.mem_cons] at hp
      rcases hp with hp | hp
      · subst hp
        by_cases hc : v.precio = none ∧ it.precio ≠ none
        · simp only [if_pos hc]
          exact hkk.trans hk
        · simp only [if_neg hc]
          exact h (k1, v) (List.mem_cons_self _ _)
      · exact h p (List.mem_cons_of_mem _ hp)
    · simp only [keepUpd, if_neg hkk, List.mem_cons] at hp
      rcases hp with hp | hp
      · subst hp
        exact h (k1, v) (List.mem_cons_self _ _)
      · exact ih (fun q hq => h q (List.mem_cons_of_mem _ hq)) p hp

theorem keepUpd_keysList (k : String × Currency) (it : Item) :
    ∀ m : List ((String × Currency) × Item),
      (keepUpd k it m).map Prod.fst =
        if k ∈ m.map Prod.fst then m.map Prod.fst else m.map Prod.fst ++ [k] := by
  intro m
  induction m with
  | nil => simp [keepUpd]
  | cons hd rest ih =>
    obtain ⟨k1, v⟩ := hd
    by_cases hkk : k1 = k
    · simp [keepUpd, hkk]
    · have hne : ¬ k = k1 := fun h => hkk h.symm
      simp only [keepUpd, if_neg hkk, List.map_cons, List.mem_cons, hne, false_or]
      rw [ih]
      by_cases hmem : k ∈ rest.map Prod.fst
      · simp [hmem]
      · simp [hmem]

theorem keepUpd_keys_nodup {k : String × Currency} {it : Item}
    {m : List ((String × Currency) × Item)} (h : (m.map Prod.fst).Nodup) :
    ((keepUpd k it m).map Prod.fst).Nodup := by
  rw [keepUpd_keysList]
  by_cases hmem : k ∈ m.map Prod.fst
  · simpa [hmem] using h
  · simp only [hmem, if_false]
    have hdisj : ∀ x : Item, (k, x) ∉ m :=
      fun x hx => hmem (List.mem_map_of_mem Prod.fst hx)
    simpa [List.nodup_append] using ⟨h, hdisj⟩

theorem keepUpd_keys_mem (k' k : String × Currency) (it : Item)
    (m : List ((String × Currency) × Item)) :
    k' ∈ (keepUpd k it m).map Prod.fst ↔ k' ∈ m.map Prod.fst ∨ k' = k := by
  rw [keepUpd_keysList]
  by_cases hmem : k ∈ m.map Prod.fst
  · simp only [hmem, if_true]
    constructor
    · exact fun h => Or.inl h
    · rintro (h | h)
      · exact h
      · exact h ▸ hmem
  · simp [hmem]

/-- The effect of one Python `keep[key] = ...` step on the entry stored
under that key. -/
def updOpt (cur : Option Item) (it : Item) : Option Item :=
  match cur with
  | none => some it
  | some v => some (if v.precio = none ∧ it.precio ≠ none then it else v)

/-- The entry the loop will have stored under `k`, given the entry stored so
far and the remaining collision group. -/
def combine (cur : Option Item) (g : List Item) : Option Item :=
  match cur with
  | none => survivor g
  | some v =>
    if v.precio = none then
      match g.find? (fun it => it.precio.isSome) with
      | some w => some w
      | none => some v
    else some v

theorem lookupA_keepUpd_same (k : String × Currency) (it : Item) :
    ∀ m, lookupA k (keepUpd k it m) = updOpt (lookupA k m) it := by
  intro m
  induction m with
  | nil => simp [keepUpd, lookupA, updOpt]
  | cons hd rest ih =>
    obtain ⟨k1, v⟩ := hd
    by_cases hkk : k1 = k
    · simp [keepUpd, lookupA, hkk, updOpt]
    · simp [keepUpd, lookupA, hkk, ih]

theorem lookupA_keepUpd_other {k k' : String × Currency} (hne : k' ≠ k) (it : Item) :
    ∀ m, lookupA k (keepUpd k' it m) = lookupA k m := by
  intro m
  induction m with
  | nil => simp [keepUpd, lookupA, hne]
  | cons hd rest ih =>
    obtain ⟨k1, v⟩ := hd
    by_cases hkk : k1 = k'
    · have hk1k : ¬ k1 = k := by
        rw [hkk]
        exact hne
      simp only [keepUpd, if_pos hkk, lookupA, if_neg hk1k]
    · simp only [keepUpd, if_neg hkk, lookupA]
      by_cases hk1 : k1 = k
      · simp [hk1]
      · simp [hk1, ih]

theorem combine_nil (cur : Option Item) : combine cur [] = cur := by
  cases cur with
  | none => rfl
  | some v =>
    by_cases h : v.precio = none <;> simp [combine, h]

theorem combine_step (cur : Option Item) (it : Item) (g : List Item) :
    combine (updOpt cur it) g = combine cur (it :: g) := by
  by_cases hit : it.precio.isSome
  · have hfind : (it :: g).find? (fun x => x.precio.isSome) = some it :=
      List.find?_cons_of_pos _ hit
    have hitne : it.precio ≠ none := Option.isSome_iff_ne_none.mp hit
    cases cur with
    | none =>
      simp only [updOpt, combine, survivor, hfind]
      by_cases hp : it.precio = none
      · exact absurd hp hitne
      · simp [hp]
    | some v =>
      by_cases hv : v.precio = none
      · simp only [updOpt, hv, hitne, and_true, if_pos rfl, combine, if_pos hv, hfind]
        by_cases hp : it.precio = none
        · exact absurd hp hitne
        · simp [hp]
      · simp [updOpt, hv, combine]
  · have hfind : (it :: g).find? (fun x => x.precio.isSome) = g.find? (fun x => x.precio.isSome) :=
      List.find?_cons_of_neg _ hit
    have hitnone : it.precio = none := Option.not_isSome_iff_eq_none.mp hit
    cases cur with
    | none =>
      simp only [updOpt, combine, survivor, hfind, hitnone]
      cases hg : g.find? (fun x => x.precio.isSome) with
      | none => simp [List.head?]
      | some w => simp
    | some v =>
      by_cases hv : v.precio = none
      · simp [updOpt, hv, hitnone, combine, hfind]
      · simp [updOpt, hv, hitnone, combine, hfind]

theorem foldl_keepUpd_lookup (k : String × Currency) :
    ∀ (l : List Item) (m : List ((String × Currency) × Item)),
      lookupA k (l.foldl (fun m it => keepUpd (itemKey it) it m) m) =
        combine (lookupA k m) (l.filter (fun it => itemKey it = k)) := by
  intro l
  induction l with
  | nil =>
    intro m
    simp [combine_nil]
  | cons it l ih =>
    intro m
    by_cases hk : itemKey it = k
    · rw [List.foldl_cons, ih, hk, lookupA_keepUpd_same, combine_step]
      congr 1
      rw [List.filter_cons_of_pos]
      simpa using hk
    · rw [List.foldl_cons, ih, lookupA_keepUpd_other hk it]
      congr 1
      rw [List.filter_cons_of_neg]
      simpa using hk

theorem lookupA_of_mem_nodup :
    ∀ {m : List ((String × Currency) × Item)} {k : String × Currency} {v : Item},
      (m.map Prod.fst).Nodup → (k, v) ∈ m → lookupA k m = some v := by
  intro m
  induction m with
  | nil => intro k v _ h; simp at h
  | cons hd rest ih =>
    obtain ⟨k1, v1⟩ := hd
    intro k v hnd hmem
    rcases List.mem_cons.mp hmem with h | h
    · simp only [lookupA]
      have h1 : k1 = k := (congrArg Prod.fst h).symm
      have h2 : v1 = v := (congrArg Prod.snd h).symm
      rw [if_pos h1, h2]
    · have hk1 : k1 ≠ k := by
        intro he
        have : k ∈ rest.map Prod.fst := List.mem_map_of_mem Prod.fst h
        rw [List.map_cons, List.nodup_cons] at hnd
        exact hnd.1 (he ▸ this)
      simp only [lookupA, if_neg hk1]
      exact ih (by rw [List.map_cons, List.nodup_cons] at hnd; exact hnd.2) h

theorem foldl_pairs :
    ∀ (l : List Item) (m : List ((String × Currency) × Item)),
      (∀ p ∈ m, p.1 = itemKey p.2) →
      ∀ p ∈ l.foldl (fun m it => keepUpd (itemKey it) it m) m, p.1 = itemKey p.2 := by
  intro l
  induction l with
  | nil => intro m h; simpa using h
  | cons it l ih =>
    intro m h
    rw [List.foldl_cons]
    exact ih _ (keepUpd_pairs rfl m h)

theorem foldl_keys_nodup :
    ∀ (l : List Item) (m : List ((String × Currency) × Item)),
      (m.map Prod.fst).Nodup →
      ((l.foldl (fun m it => keepUpd (itemKey it) it m) m).map Prod.fst).Nodup := by
  intro l
  induction l with
  | nil => intro m h; simpa using h
  | cons it l ih =>
    intro m h
    rw [List.foldl_cons]
    exact ih _ (keepUpd_keys_nodup h)

theorem foldl_keys_mem (k : String × Currency) :
    ∀ (l : List Item) (m : List ((String × Currency) × Item)),
      k ∈ (l.foldl (fun m it => keepUpd (itemKey it) it m) m).map Prod.fst ↔
        k ∈ m.map Prod.fst ∨ k ∈ l.map itemKey := by
  intro l
  induction l with
  | nil => intro m; simp
  | cons it l ih =>
    intro m
    rw [List.foldl_cons, ih, keepUpd_keys_mem]
    simp only [List.map_cons, List.mem_cons]
    tauto

theorem out_keys_perm (l : List Item) (ob : Bool) :
    List.Perm ((dedupe_and_sort l ob).map itemKey)
      ((keepFold (baseFilter ob l)).map Prod.fst) := by
  have hpairs : ∀ p ∈ keepFold (baseFilter ob l), p.1 = itemKey p.2 :=
    foldl_pairs _ [] (by simp)
  have hperm :
      List.Perm (dedupe_and_sort l ob) ((keepFold (baseFilter ob l)).map Prod.snd) := by
    unfold dedupe_and_sort
    exact List.perm_insertionSort _ _
  have h1 := hperm.map itemKey
  rw [List.map_map] at h1
  have h2 : (keepFold (baseFilter ob l)).map (itemKey ∘ Prod.snd) =
      (keepFold (baseFilter ob l)).map Prod.fst :=
    List.map_congr_left (fun p hp => (hpairs p hp).symm)
  rw [h2] at h1
  exact h1

theorem out_keys_nodup (l : List Item) (ob : Bool) :
    ((dedupe_and_sort l ob).map itemKey).Nodup :=
  (out_keys_perm l ob).nodup_iff.mpr (foldl_keys_nodup _ [] (by simp))

theorem out_keys_mem (l : List Item) (ob : Bool) (k : String × Currency) :
    k ∈ (dedupe_and_sort l ob).map itemKey ↔ k ∈ (baseFilter ob l).map itemKey := by
  rw [(out_keys_perm l ob).mem_iff]
  have := foldl_keys_mem k (baseFilter ob l) []
  unfold keepFold
  rw [this]
  simp

/-- C2: for every list of raw quotes (and either value of the base-products
flag), the aggregate output has at most one entry per (product, currency)
pair, and each surviving entry is exactly the first-seen row of its collision
group carrying a non-null price if one exists, else the first-seen row —
i.e. a non-null price is preferred over a null one, and the first-seen price
is kept otherwise. -/
theorem aggregate_unique_and_null_preference (l : List Item) (ob : Bool) :
    ((dedupe_and_sort l ob).map itemKey).Nodup ∧
    ∀ it ∈ dedupe_and_sort l ob,
      survivor ((baseFilter ob l).filter (fun x => itemKey x = itemKey it)) = some it := by
  refine ⟨out_keys_nodup l ob, ?_⟩
  intro it hit
  have hpairs : ∀ p ∈ keepFold (baseFilter ob l), p.1 = itemKey p.2 :=
    foldl_pairs _ [] (by simp)
  have hnodup : ((keepFold (baseFilter ob l)).map Prod.fst).Nodup :=
    foldl_keys_nodup _ [] (by simp)
  have hperm :
      List.Perm (dedupe_and_sort l ob) ((keepFold (baseFilter ob l)).map Prod.snd) := by
    unfold dedupe_and_sort
    exact List.perm_insertionSort _ _
  have hmem : it ∈ (keepFold (baseFilter ob l)).map Prod.snd := hperm.mem_iff.mp hit
  obtain ⟨p, hp, hpe⟩ := List.mem_map.mp hmem
  have hkeq : p = (itemKey it, it) := by
    have h1 : p.1 = itemKey it := by rw [hpairs p hp, hpe]
    exact Prod.ext h1 hpe
  rw [hkeq] at hp
  have hlook : lookupA (itemKey it) (keepFold (baseFilter ob l)) = some it :=
    lookupA_of_mem_nodup hnodup hp
  unfold keepFold at hlook
  rw [foldl_keepUpd_lookup] at hlook
  simpa [lookupA, combine] using hlook

/-- C2 witness: with a null-price Soja row first and a priced Soja row second,
the priced row survives. -/
theorem aggregate_unique_witness :
    ((dedupe_and_sort
        [⟨"Soja", none, Currency.ARS, "s/c", "s/c"⟩,
         ⟨"Soja", some (mkRat 3 1), Currency.ARS, "s/c", "s/c"⟩] false).map itemKey).Nodup ∧
    survivor ((baseFilter false
        [⟨"Soja", none, Currency.ARS, "s/c", "s/c"⟩,
         ⟨"Soja", some (mkRat 3 1), Currency.ARS, "s/c", "s/c"⟩]).filter
      (fun x => itemKey x = itemKey ⟨"Soja", some (mkRat 3 1), Currency.ARS, "s/c", "s/c"⟩)) =
      some ⟨"Soja", some (mkRat 3 1), Currency.ARS, "s/c", "s/c"⟩ :=
  ⟨(aggregate_unique_and_null_preference _ false).1,
   (aggregate_unique_and_null_preference _ false).2 _ (by decide)⟩

/-- The ordering the SPEC describes (for comparison with the code): primary
key the fixed canonical product order with unlisted products last; unlisted
products ordered alphabetically; the ARS entry before the USD entry for the
same product.  This is product-major: the currency only breaks ties between
entries of the same product. -/
def specLE (a b : Item) : Prop :=
  prodIdx (normalize_product_name a.producto) < prodIdx (normalize_product_name b.producto) ∨
  (prodIdx (normalize_product_name a.producto) = prodIdx (normalize_product_name b.producto) ∧
    (keyLt ((normalize_product_name a.producto).data.map Char.toNat)
        ((normalize_product_name b.producto).data.map Char.toNat) ∨
      (normalize_product_name a.producto = normalize_product_name b.producto ∧
        monRank a.moneda ≤ monRank b.moneda)))

instance specLE.decRel : DecidableRel specLE := by
  unfold specLE
  infer_instance

/-- C6 counterexample: two unlisted products with different currencies.  The
code's `sort_key` ranks the currency BEFORE the alphabetical product name, so
the ARS-quoted "Zeta" sorts before the USD-quoted "Avena", violating the
claimed "unlisted products sort last alphabetically". -/
theorem aggregate_order_spec_counterexample :
    ¬ List.Sorted specLE (dedupe_and_sort
      [⟨"Zeta", some (mkRat 1 1), Currency.ARS, "s/c", "s/c"⟩,
       ⟨"Avena", some (mkRat 2 1), Currency.USD, "s/c", "s/c"⟩] false) := by
  decide

/-- C6 (amended): the aggregate output is sorted by the code's composite sort
key — canonical product-order index (unlisted products share the last rank),
then currency rank (ARS before USD), then the normalized product name
alphabetically — and the sequence of (product, currency) keys of the output
is identical for any permutation of the same input. -/
theorem aggregate_order_and_perm_invariance (l l2 : List Item) (ob : Bool)
    (hperm : List.Perm l l2) :
    List.Sorted itemLE (dedupe_and_sort l ob) ∧
    (dedupe_and_sort l ob).map itemKey = (dedupe_and_sort l2 ob).map itemKey := by
  constructor
  · unfold dedupe_and_sort
    exact List.sorted_insertionSort itemLE _
  · have hbase : List.Perm (baseFilter ob l) (baseFilter ob l2) := by
      cases ob with
      | false => simpa [baseFilter] using hperm
      | true => simpa [baseFilter] using hperm.filter _
    have hmemAB : ∀ k, k ∈ (dedupe_and_sort l ob).map itemKey ↔
        k ∈ (dedupe_and_sort l2 ob).map itemKey := by
      intro k
      rw [out_keys_mem, out_keys_mem]
      exact (hbase.map itemKey).mem_iff
    have hsortedA : List.Sorted keyLE ((dedupe_and_sort l ob).map itemKey |>.map keyEnc) := by
      have hs : List.Sorted itemLE (dedupe_and_sort l ob) := by
        unfold dedupe_and_sort
        exact List.sorted_insertionSort itemLE _
      rw [List.map_map]
      exact (List.pairwise_map).mpr hs
    have hsortedB : List.Sorted keyLE ((dedupe_and_sort l2 ob).map itemKey |>.map keyEnc) := by
      have hs : List.Sorted itemLE (dedupe_and_sort l2 ob) := by
        unfold dedupe_and_sort
        exact List.sorted_insertionSort itemLE _
      rw [List.map_map]
      exact (List.pairwise_map).mpr hs
    have hndA : ((dedupe_and_sort l ob).map itemKey |>.map keyEnc).Nodup :=
      (out_keys_nodup l ob).map keyEnc_injective
    have hndB : ((dedupe_and_sort l2 ob).map itemKey |>.map keyEnc).Nodup :=
      (out_keys_nodup l2 ob).map keyEnc_injective
    have hfin : ((dedupe_and_sort l ob).map itemKey |>.map keyEnc).toFinset =
        ((dedupe_and_sort l2 ob).map itemKey |>.map keyEnc).toFinset := by
      ext x
      rw [List.mem_toFinset, List.mem_toFinset]
      constructor
      · intro hx
        obtain ⟨a, ha, rfl⟩ := List.mem_map.mp hx
        exact List.mem_map.mpr ⟨a, (hmemAB a).mp ha, rfl⟩
      · intro hx
        obtain ⟨a, ha, rfl⟩ := List.mem_map.mp hx
        exact List.mem_map.mpr ⟨a, (hmemAB a).mpr ha, rfl⟩
    have hpermN := List.perm_of_nodup_nodup_toFinset_eq hndA hndB hfin
    have heq := List.eq_of_perm_of_sorted hpermN hsortedA hsortedB
    exact List.map_injective_iff.mpr keyEnc_injective heq

/-- C6 witness: the amended theorem applied to a two-element list and its
reversal. -/
theorem aggregate_order_witness :
    List.Sorted itemLE (dedupe_and_sort
      [⟨"Trigo", some (mkRat 1 1), Currency.USD, "s/c", "s/c"⟩,
       ⟨"Soja", some (mkRat 2 1), Currency.ARS, "s/c", "s/c"⟩] false) ∧
    (dedupe_and_sort
      [⟨"Trigo", some (mkRat 1 1), Currency.USD, "s/c", "s/c"⟩,
       ⟨"Soja", some (mkRat 2 1), Currency.ARS, "s/c", "s/c"⟩] false).map itemKey =
    (dedupe_and_sort
      [⟨"Soja", some (mkRat 2 1), Currency.ARS, "s/c", "s/c"⟩,
       ⟨"Trigo", some (mkRat 1 1), Currency.USD, "s/c", "s/c"⟩] false).map itemKey :=
  aggregate_order_and_perm_invariance _ _ false (by decide)

/-- Python `str(n)` for a non-negative integer. -/
def natToChars (n : Nat) : List Char :=
  Nat.toDigits 10 n

/-- Models the 64-bit digest `int(hashlib.blake2b(·, digest_size=8).hexdigest(), 16)`
of the library call in `_uvalue16`: a fixed, deterministic function of the
input bytes into [0, 2^64).  The claims settled here depend only on the
digest being a deterministic function with a 64-bit range, not on the
particular hash, so the BLAKE2 compression is represented by a simple
deterministic mixing function. -/
def blakeDigest64 (cs : List Char) : Nat :=
  cs.foldl (fun a c => (a * 1099511628211 + c.toNat) % (2 ^ 64)) 14695981039346656037

/-- Round `a / b` (with `b > 0`) to the nearest integer, ties to even —
the rounding Python's `round` and `format(..., ".2f")` apply (Python works
on binary doubles; the exact-rational model rounds the exact value). -/
def roundHalfEvenInt (a : ℤ) (b : ℕ) : ℤ :=
  let f := Int.fdiv a b
  let r := a - f * b
  if 2 * r < b then f
  else if (b : ℤ) < 2 * r then f + 1
  else if f % 2 = 0 then f
  else f + 1

/-- Python `round(q, 2)`. -/
def round2 (q : ℚ) : ℚ :=
  mkRat (roundHalfEvenInt (q.num * 100) q.den) 100

/-- Python `f"{q:.2f}"`. -/
def fmt2f (q : ℚ) : List Char :=
  let m := roundHalfEvenInt (q.num * 100) q.den
  let sign : List Char := if m < 0 then ['-'] else []
  let a := m.natAbs
  sign ++ natToChars (a / 100) ++ '.' ::
    (if a % 100 < 10 then '0' :: natToChars (a % 100) else natToChars (a % 100))

/-- `_uvalue16` from `app/main_backup16102025OKDef9.py`: hash the
pipe-joined fields (`f"{mes or ''}"` renders `None` as the empty string,
the price as `%.2f`), reduce modulo 10^16, and remap a zero residue to 1. -/
def _uvalue16 (grano siglo : Nat) (cosecha pizarra : String) (fechavig : Nat)
    (mes : Option String) (ejercicio : Option Nat) (precioref : ℚ) : Nat :=
  let base :=
    natToChars grano ++ '|' :: natToChars siglo ++ '|' :: cosecha.data ++
    '|' :: pizarra.data ++ '|' :: natToChars fechavig ++
    '|' :: (match mes with | some m => m.data | none => []) ++
    '|' :: (match ejercicio with | some e => natToChars e | none => []) ++
    '|' :: fmt2f precioref
  let n := blakeDigest64 base % 10 ^ 16
  if n = 0 then 1 else n

theorem reduce16_pos (n : Nat) :
    1 ≤ (if n % 10 ^ 16 = 0 then 1 else n % 10 ^ 16) := by
  by_cases h : n % 10 ^ 16 = 0
  · rw [if_pos h]
  · rw [if_neg h]
    exact Nat.one_le_iff_ne_zero.mpr h

theorem reduce16_lt (n : Nat) :
    (if n % 10 ^ 16 = 0 then 1 else n % 10 ^ 16) < 10 ^ 16 := by
  by_cases h : n % 10 ^ 16 = 0
  · rw [if_pos h]
    norm_num
  · rw [if_neg h]
    exact Nat.mod_lt _ (by norm_num)

/-- C5: the surrogate key is a deterministic function of its inputs (equal
inputs give equal keys), and for every input it lies in 1 .. 10^16 − 1:
the hash is reduced modulo 10^16 and a zero residue is remapped to 1. -/
theorem uvalue16_deterministic_in_range
    (grano siglo : Nat) (cosecha pizarra : String) (fechavig : Nat)
    (mes : Option String) (ejercicio : Option Nat) (precioref : ℚ) :
    1 ≤ _uvalue16 grano siglo cosecha pizarra fechavig mes ejercicio precioref ∧
    _uvalue16 grano siglo cosecha pizarra fechavig mes ejercicio precioref < 10 ^ 16 ∧
    (∀ (g2 s2 : Nat) (c2 p2 : String) (f2 : Nat) (m2 : Option String)
        (e2 : Option Nat) (pr2 : ℚ),
      grano = g2 → siglo = s2 → cosecha = c2 → pizarra = p2 → fechavig = f2 →
      mes = m2 → ejercicio = e2 → precioref = pr2 →
      _uvalue16 grano siglo cosecha pizarra fechavig mes ejercicio precioref =
        _uvalue16 g2 s2 c2 p2 f2 m2 e2 pr2) := by
  refine ⟨?_, ?_, ?_⟩
  · dsimp only [_uvalue16]
    exact reduce16_pos _
  · dsimp only [_uvalue16]
    exact reduce16_lt _
  · intro g2 s2 c2 p2 f2 m2 e2 pr2 h1 h2 h3 h4 h5 h6 h7 h8
    rw [h1, h2, h3, h4, h5, h6, h7, h8]

/-- C5 witness: the three conjuncts at a concrete export row. -/
theorem uvalue16_deterministic_in_range_witness :
    1 ≤ _uvalue16 10 21 "0" "ROS" 20251012 none none (mkRat 100 1) ∧
    _uvalue16 10 21 "0" "ROS" 20251012 none none (mkRat 100 1) < 10 ^ 16 ∧
    _uvalue16 10 21 "0" "ROS" 20251012 none none (mkRat 100 1) =
      _uvalue16 10 21 "0" "ROS" 20251012 none none (mkRat 100 1) := by
  obtain ⟨h1, h2, h3⟩ :=
    uvalue16_deterministic_in_range 10 21 "0" "ROS" 20251012 none none (mkRat 100 1)
  exact ⟨h1, h2, h3 10 21 "0" "ROS" 20251012 none none (mkRat 100 1)
    rfl rfl rfl rfl rfl rfl rfl rfl⟩

/-- The counters `export_oracle` reports: rows inserted, rows whose key was
already present (MERGE matched), rows skipped before insertion. -/
structure ExportCounts where
  inserted : Nat
  already : Nat
  skipped : Nat
deriving DecidableEq, Repr

/-- `_GRAIN_MAP.get(prod, 0)` from `app/main_backup16102025OKDef9.py`. -/
def _GRAIN_MAP (prod : String) : Nat :=
  if prod = "Trigo" then 10
  else if prod = "Trigo Art 12" then 10
  else if prod = "Maiz" then 200
  else if prod = "Soja" then 210
  else if prod = "Sorgo" then 220
  else if prod = "Girasol" then 230
  else 0

/-- `_PIZARRA_MAP.get(plaza, "UNK")` from `app/main_backup16102025OKDef9.py`. -/
def _PIZARRA_MAP (plaza : String) : String :=
  if plaza = "rosario" then "ROS"
  else if plaza = "bahia" then "BHI"
  else if plaza = "cordoba" then "CBA"
  else if plaza = "quequen" then "QQN"
  else if plaza = "darsena" then "DAR"
  else if plaza = "locales" then "LOC"
  else "UNK"

/-- The surrogate key computed for one export row (fixed placeholders
`siglo = 21`, `cosecha = "0"`, `mes = ejercicio = None`, price rounded to
two decimals as in the loop body). -/
def rowUv (pizarra : String) (fechavig : Nat) (it : Item) : Nat :=
  _uvalue16 (_GRAIN_MAP it.producto) 21 "0" pizarra fechavig none none
    (round2 (it.precio.getD 0))

/-- Whether the loop skips a row before reaching the MERGE: unmapped product
(code 0) or a product code absent from the store's GRANO reference table. -/
def rowSkip (granos : List Nat) (it : Item) : Bool :=
  if _GRAIN_MAP it.producto = 0 then true
  else if _GRAIN_MAP it.producto ∈ granos then false
  else true

/-- The per-row loop of `export_oracle`.  The Oracle store is modelled by the
read-only GRANO reference list plus the list of UVALUE keys present in
TB_REF; the idempotent `MERGE ... WHEN NOT MATCHED THEN INSERT` keyed on
UVALUE inserts exactly when the key is absent (rowcount 1), else leaves the
row untouched (rowcount 0, counted as already present). -/
def exportLoop (granos : List Nat) (pizarra : String) (fechavig : Nat) :
    List Item → List Nat → ExportCounts → ExportCounts × List Nat
  | [], uvalues, acc => (acc, uvalues)
  | it :: rest, uvalues, acc =>
    if _GRAIN_MAP it.producto = 0 then
      exportLoop granos pizarra fechavig rest uvalues
        ⟨acc.inserted, acc.already, acc.skipped + 1⟩
    else if _GRAIN_MAP it.producto ∈ granos then
      let uvalue := rowUv pizarra fechavig it
      if uvalue ∈ uvalues then
        exportLoop granos pizarra fechavig rest uvalues
          ⟨acc.inserted, acc.already + 1, acc.skipped⟩
      else
        exportLoop granos pizarra fechavig rest (uvalue :: uvalues)
          ⟨acc.inserted + 1, acc.already, acc.skipped⟩
    else
      exportLoop granos pizarra fechavig rest uvalues
        ⟨acc.inserted, acc.already, acc.skipped + 1⟩

/-- `export_oracle` from `app/main_backup16102025OKDef9.py`, on an already
scraped quote list: filter to rows with a positive numeric price, answer
`sin_datos` (modelled as `none`) when nothing remains, otherwise run the
MERGE loop and commit. -/
def export_oracle (plaza_norm : String) (items : List Item)
    (granos uvalues : List Nat) (fechavig : Nat) :
    Option ExportCounts × List Nat :=
  let rows := items.filter (fun it =>
    match it.precio with
    | some p => decide (0 < p)
    | none => false)
  if rows = [] then (none, uvalues)
  else
    let r := exportLoop granos (_PIZARRA_MAP plaza_norm) fechavig rows uvalues ⟨0, 0, 0⟩
    (some r.1, r.2)

theorem exportLoop_spec (granos : List Nat) (piz : String) (f : Nat) :
    ∀ (rows : List Item) (uv : List Nat) (acc : ExportCounts),
      (∀ x ∈ uv, x ∈ (exportLoop granos piz f rows uv acc).2) ∧
      (∀ it ∈ rows, rowSkip granos it = false →
        rowUv piz f it ∈ (exportLoop granos piz f rows uv acc).2) ∧
      (exportLoop granos piz f rows uv acc).1.inserted +
          (exportLoop granos piz f rows uv acc).1.already =
        acc.inserted + acc.already + rows.countP (fun it => !rowSkip granos it) ∧
      (exportLoop granos piz f rows uv acc).1.skipped =
        acc.skipped + rows.countP (fun it => rowSkip granos it) := by
  intro rows
  induction rows with
  | nil =>
    intro uv acc
    simp [exportLoop]
  | cons it rest ih =>
    intro uv acc
    by_cases h0 : _GRAIN_MAP it.producto = 0
    · have hskip : rowSkip granos it = true := by simp [rowSkip, h0]
      simp only [exportLoop, if_pos h0]
      obtain ⟨i1, i2, i3, i4⟩ := ih uv ⟨acc.inserted, acc.already, acc.skipped + 1⟩
      refine ⟨i1, ?_, ?_, ?_⟩
      · intro x hx hs
        rcases List.mem_cons.mp hx with hx | hx
        · rw [hx] at hs
          rw [hskip] at hs
          cases hs
        · exact i2 x hx hs
      · rw [i3]
        simp [List.countP_cons, hskip] <;> ring
      · rw [i4]
        simp [List.countP_cons, hskip] <;> ring
    · by_cases hg : _GRAIN_MAP it.producto ∈ granos
      · have hskip : rowSkip granos it = false := by simp [rowSkip, h0, hg]
        simp only [exportLoop, if_neg h0, if_pos hg]
        by_cases hu : rowUv piz f it ∈ uv
        · simp only [if_pos hu]
          obtain ⟨i1, i2, i3, i4⟩ := ih uv ⟨acc.inserted, acc.already + 1, acc.skipped⟩
          refine ⟨i1, ?_, ?_, ?_⟩
          · intro x hx hs
            rcases List.mem_cons.mp hx with hx | hx
            · rw [hx]
              exact i1 _ hu
            · exact i2 x hx hs
          · rw [i3]
            simp [List.countP_cons, hskip] <;> ring
          · rw [i4]
            simp [List.countP_cons, hskip]
        · simp only [if_neg hu]
          obtain ⟨i1, i2, i3, i4⟩ :=
            ih (rowUv piz f it :: uv) ⟨acc.inserted + 1, acc.already, acc.skipped⟩
          refine ⟨?_, ?_, ?_, ?_⟩
          · intro x hx
            exact i1 x (List.mem_cons_of_mem _ hx)
          · intro x hx hs
            rcases List.mem_cons.mp hx with hx | hx
            · rw [hx]
              exact i1 _ (List.mem_cons_self _ _)
            · exact i2 x hx hs
          · rw [i3]
            simp [List.countP_cons, hskip] <;> ring
          · rw [i4]
            simp [List.countP_cons, hskip]
      · have hskip : rowSkip granos it = true := by simp [rowSkip, h0, hg]
        simp only [exportLoop, if_neg h0, if_neg hg]
        obtain ⟨i1, i2, i3, i4⟩ := ih uv ⟨acc.inserted, acc.already, acc.skipped + 1⟩
        refine ⟨i1, ?_, ?_, ?_⟩
        · intro x hx hs
          rcases List.mem_cons.mp hx with hx | hx
          · rw [hx] at hs
            rw [hskip] at hs
            cases hs
          · exact i2 x hx hs
        · rw [i3]
          simp [List.countP_cons, hskip] <;> ring
        · rw [i4]
          simp [List.countP_cons, hskip] <;> ring

theorem exportLoop_all_present (granos : List Nat) (piz : String) (f : Nat) :
    ∀ (rows : List Item) (uv : List Nat) (acc : ExportCounts),
      (∀ it ∈ rows, rowSkip granos it = false → rowUv piz f it ∈ uv) →
      exportLoop granos piz f rows uv acc =
        (⟨acc.inserted,
          acc.already + rows.countP (fun it => !rowSkip granos it),
          acc.skipped + rows.countP (fun it => rowSkip granos it)⟩, uv) := by
  intro rows
  induction rows with
  | nil =>
    intro uv acc _
    simp [exportLoop]
  | cons it rest ih =>
    intro uv acc hall
    by_cases h0 : _GRAIN_MAP it.producto = 0
    · have hskip : rowSkip granos it = true := by simp [rowSkip, h0]
      simp only [exportLoop, if_pos h0]
      rw [ih uv _ (fun x hx hs => hall x (List.mem_cons_of_mem _ hx) hs)]
      simp [List.countP_cons, hskip] <;> ring
    · by_cases hg : _GRAIN_MAP it.producto ∈ granos
      · have hskip : rowSkip granos it = false := by simp [rowSkip, h0, hg]
        have hu : rowUv piz f it ∈ uv :=
          hall it (List.mem_cons_self _ _) hskip
        simp only [exportLoop, if_neg h0, if_pos hg, if_pos hu]
        rw [ih uv _ (fun x hx hs => hall x (List.mem_cons_of_mem _ hx) hs)]
        simp [List.countP_cons, hskip] <;> ring
      · have hskip : rowSkip granos it = true := by simp [rowSkip, h0, hg]
        simp only [exportLoop, if_neg h0, if_neg hg]
        rw [ih uv _ (fun x hx hs => hall x (List.mem_cons_of_mem _ hx) hs)]
        simp [List.countP_cons, hskip] <;> ring

/-- C4 (amended): re-exporting the same unchanged quote list in immediate
succession (same valid date) inserts nothing the second time: every surrogate
key is already in the store, the store is left untouched, the second call's
skipped count equals the first call's, and its already_present count equals
the number of non-skipped rows — the first call's inserted PLUS the first
call's already_present (not inserted alone, as originally claimed). -/
theorem export_oracle_second_run (plaza : String) (items : List Item)
    (granos uv : List Nat) (f : Nat) (c1 : ExportCounts) (uv1 : List Nat)
    (h1 : export_oracle plaza items granos uv f = (some c1, uv1)) :
    export_oracle plaza items granos uv1 f =
      (some ⟨0, c1.inserted + c1.already, c1.skipped⟩, uv1) := by
  unfold export_oracle at h1 ⊢
  by_cases hr : items.filter (fun it =>
      match it.precio with
      | some p => decide (0 < p)
      | none => false) = []
  · rw [if_pos hr] at h1
    cases h1
  · rw [if_neg hr] at h1 ⊢
    have hc1 : (exportLoop granos (_PIZARRA_MAP plaza) f
        (items.filter (fun it =>
          match it.precio with
          | some p => decide (0 < p)
          | none => false)) uv ⟨0, 0, 0⟩).1 = c1 := by
      have := congrArg Prod.fst h1
      simpa using this
    have huv1 : (exportLoop granos (_PIZARRA_MAP plaza) f
        (items.filter (fun it =>
          match it.precio with
          | some p => decide (0 < p)
          | none => false)) uv ⟨0, 0, 0⟩).2 = uv1 := by
      have := congrArg Prod.snd h1
      simpa using this
    obtain ⟨_, hpresent, hsum, hskip⟩ :=
      exportLoop_spec granos (_PIZARRA_MAP plaza) f
        (items.filter (fun it =>
          match it.precio with
          | some p => decide (0 < p)
          | none => false)) uv ⟨0, 0, 0⟩
    rw [huv1] at hpresent
    rw [hc1] at hsum hskip
    rw [exportLoop_all_present granos (_PIZARRA_MAP plaza) f _ uv1 ⟨0, 0, 0⟩ hpresent]
    dsimp only at hsum hskip ⊢
    simp only [Prod.mk.injEq, Option.some.injEq, ExportCounts.mk.injEq]
    refine ⟨⟨trivial, ?_, ?_⟩, trivial⟩ <;> omega

/-- Quote list for the C4 counterexample: "Trigo" and "Trigo Art 12" both map
to grain code 10 and carry the same price, so both rows produce the same
surrogate key within one batch. -/
def cexItems : List Item :=
  [⟨"Trigo", some (mkRat 100 1), Currency.ARS, "s/c", "s/c"⟩,
   ⟨"Trigo Art 12", some (mkRat 100 1), Currency.ARS, "s/c", "s/c"⟩]

/-- First export run of the counterexample (empty fact table, grain 10 valid). -/
def cexRun1 : Option ExportCounts × List Nat :=
  export_oracle "rosario" cexItems [10] [] 20251012

/-- Second export run of the counterexample, on the store the first run left. -/
def cexRun2 : Option ExportCounts × List Nat :=
  export_oracle "rosario" cexItems [10] cexRun1.2 20251012

/-- C4 counterexample: the first call inserts 1 row and counts 1 already
present (the in-batch surrogate-key collision), the second call reports
inserted = 0 but already_present = 2 ≠ 1 = first call's inserted, refuting
"already_present equal to the number of rows the first call inserted". -/
theorem export_oracle_idempotence_counterexample :
    cexRun1.1.map ExportCounts.inserted = some 1 ∧
    cexRun1.1.map ExportCounts.already = some 1 ∧
    cexRun2.1.map ExportCounts.inserted = some 0 ∧
    cexRun2.1.map ExportCounts.already = some 2 ∧
    cexRun2.1.map ExportCounts.already ≠ cexRun1.1.map ExportCounts.inserted := by
  refine ⟨?_, ?_, ?_, ?_, ?_⟩ <;> decide

/-- Quote list for the C4 witness: a single priced Trigo row. -/
def witItems : List Item :=
  [⟨"Trigo", some (mkRat 100 1), Currency.ARS, "s/c", "s/c"⟩]

/-- First export run of the witness. -/
def witRun1 : Option ExportCounts × List Nat :=
  export_oracle "rosario" witItems [10] [] 20251012

/-- C4 witness: the amended theorem applied to the concrete first run. -/
theorem export_oracle_second_run_witness :
    export_oracle "rosario" witItems [10] [] 20251012 = (some ⟨1, 0, 0⟩, witRun1.2) ∧
    export_oracle "rosario" witItems [10] witRun1.2 20251012 =
      (some ⟨0, 1, 0⟩, witRun1.2) := by
  have h1 : export_oracle "rosario" witItems [10] [] 20251012 =
      (some ⟨1, 0, 0⟩, witRun1.2) := by decide
  refine ⟨h1, ?_⟩
  have h2 := export_oracle_second_run "rosario" witItems [10] [] 20251012 ⟨1, 0, 0⟩
    witRun1.2 h1
  simpa using h2

/-- The exponential backoff base of `read_site_html`: 1.6. -/
def backoff : ℚ :=
  mkRat 8 5

/-- `attempts = 3` in `read_site_html`. -/
def fetchAttempts : Nat :=
  3

/-- The retry loop of `read_site_html` from `app/main_backup01102025.py`.
`oracle i` is the outcome of the i-th HTTP GET (body text, or the exception
the attempt raised).  Returns the overall outcome, the list of back-off
sleeps performed (`backoff ** i` seconds after the i-th failed attempt when
a retry remains), and the number of GET attempts issued.  The `rem = 0` case
is unreachable: the loop always starts with `fetchAttempts = 3 > 0`. -/
def fetchGo (oracle : Nat → Except String String) :
    Nat → Nat → Except String String × List ℚ × Nat
  | _, 0 => (Except.error "unreachable", [], 0)
  | i, rem + 1 =>
    match oracle i with
    | Except.ok body => (Except.ok body, [], 1)
    | Except.error e =>
      if rem = 0 then (Except.error e, [], 1)
      else
        let r := fetchGo oracle (i + 1) rem
        (r.1, backoff ^ i :: r.2.1, r.2.2 + 1)

/-- `read_site_html`, from attempt 0 with 3 attempts available. -/
def read_site_html (oracle : Nat → Except String String) :
    Except String String × List ℚ × Nat :=
  fetchGo oracle 0 fetchAttempts

/-- The error raised by one `requests.get` in `fetch_html`
(`app/main_backup16102025OKDef9.py`): an `HTTPError` carrying the response
status code, or any other exception (timeout, connection error). -/
inductive ReqErr
  | httpError (code : Option Nat)
  | other (msg : String)
deriving DecidableEq, Repr

/-- `fetch_html` from `app/main_backup16102025OKDef9.py`: one `requests`
attempt, falling back to the Playwright rendering (outcome `pwOutcome`)
exactly when the driver is `auto` and the status is 403 or 429; a forced
`playwright` driver goes straight to the fallback.  Only `HTTPError` is
caught; every other exception propagates. -/
def fetch_html (driver : String) (reqOutcome : Except ReqErr String)
    (pwOutcome : Except String String) : Except ReqErr String :=
  if driver = "auto" ∨ driver = "requests" then
    match reqOutcome with
    | Except.ok t => Except.ok t
    | Except.error (ReqErr.httpError code) =>
      if driver = "auto" ∧ (code = some 403 ∨ code = some 429) then
        match pwOutcome with
        | Except.ok t => Except.ok t
        | Except.error m => Except.error (ReqErr.other m)
      else Except.error (ReqErr.httpError code)
    | Except.error e => Except.error e
  else
    match pwOutcome with
    | Except.ok t => Except.ok t
    | Except.error m => Except.error (ReqErr.other m)

/-- C7: the primary fetch path performs at most 3 GET attempts, the sleeps
between consecutive failed attempts are exactly 1.6^attempt (for the
attempts actually retried), and when every attempt fails the single error
surfaced is the last attempt's; in the later variant, when the primary path
is blocked (403/429, driver `auto`) and the browser fallback also fails,
the single error surfaced carries the fallback's (last) underlying cause. -/
theorem fetcher_retries_and_last_error :
    (∀ oracle : Nat → Except String String,
      (read_site_html oracle).2.2 ≤ 3 ∧
      (read_site_html oracle).2.1 =
        (List.range ((read_site_html oracle).2.2 - 1)).map (fun i => backoff ^ i)) ∧
    (∀ (oracle : Nat → Except String String) (e0 e1 e2 : String),
      oracle 0 = Except.error e0 → oracle 1 = Except.error e1 →
      oracle 2 = Except.error e2 →
      (read_site_html oracle).1 = Except.error e2 ∧ (read_site_html oracle).2.2 = 3) ∧
    (∀ (code : Option Nat) (m : String),
      code = some 403 ∨ code = some 429 →
      fetch_html "auto" (Except.error (ReqErr.httpError code)) (Except.error m) =
        Except.error (ReqErr.other m)) := by
  refine ⟨?_, ?_, ?_⟩
  · intro oracle
    unfold read_site_html fetchAttempts
    cases h0 : oracle 0 with
    | ok b0 => simp [fetchGo, h0]
    | error e0 =>
      cases h1 : oracle 1 with
      | ok b1 => simp [fetchGo, h0, h1, List.range_succ]
      | error e1 =>
        cases h2 : oracle 2 with
        | ok b2 => simp [fetchGo, h0, h1, h2, List.range_succ]
        | error e2 => simp [fetchGo, h0, h1, h2, List.range_succ]
  · intro oracle e0 e1 e2 h0 h1 h2
    unfold read_site_html fetchAttempts
    simp [fetchGo, h0, h1, h2]
  · intro code m hc
    have : ("auto" : String) = "auto" ∧ (code = some 403 ∨ code = some 429) := ⟨rfl, hc⟩
    simp [fetch_html, this]

/-- C7 witness: an always-failing oracle exercises all three attempts and
surfaces the last error; a 403 on the primary path with a failing fallback
surfaces the fallback's error. -/
theorem fetcher_retries_witness :
    ((read_site_html fun _ => Except.error "boom").2.2 ≤ 3 ∧
      (read_site_html fun _ => Except.error "boom").2.1 =
        (List.range ((read_site_html fun _ => Except.error "boom").2.2 - 1)).map
          (fun i => backoff ^ i)) ∧
    ((read_site_html fun _ => Except.error "boom").1 = Except.error "boom" ∧
      (read_site_html fun _ => Except.error "boom").2.2 = 3) ∧
    fetch_html "auto" (Except.error (ReqErr.httpError (some 403)))
        (Except.error "net::blocked") =
      Except.error (ReqErr.other "net::blocked") := by
  obtain ⟨h1, h2, h3⟩ := fetcher_retries_and_last_error
  exact ⟨h1 _, h2 (fun _ => Except.error "boom") "boom" "boom" "boom" rfl rfl rfl,
    h3 (some 403) "net::blocked" (Or.inl rfl)⟩

/-- `\w` word characters of Python `re` (ASCII fragment). -/
def isWordChar (c : Char) : Bool :=
  c.isAlpha || c.isDigit || c = '_'

/-- A `\b` boundary holds before the current position given the previous
character (start of string, or a non-word character). -/
def wordBoundaryBefore : Option Char → Bool
  | none => true
  | some c => !isWordChar c

/-- The month abbreviations of `_looks_like_future`. -/
def monthToks : List (List Char) :=
  ["ENE".data, "FEB".data, "MAR".data, "ABR".data, "MAY".data, "JUN".data,
   "JUL".data, "AGO".data, "SEP".data, "OCT".data, "NOV".data, "DIC".data]

/-- Case-insensitive token match at the head of `s` followed by a `\b`
boundary (end of string or non-word character). -/
def tokenAt (tok s : List Char) : Bool :=
  decide (pyLower (s.take tok.length) = pyLower tok) &&
  decide (tok.length ≤ s.length) &&
  (match s.drop tok.length with
   | [] => true
   | d :: _ => !isWordChar d)

/-- Scan for `\b(ENE|FEB|...)\b` case-insensitively; `prev` is the character
before the current position. -/
def scanMonth (prev : Option Char) : List Char → Bool
  | [] => false
  | c :: rest =>
    (wordBoundaryBefore prev && monthToks.any (fun t => tokenAt t (c :: rest))) ||
      scanMonth (some c) rest

/-- `\d{2}/\d{4}\b` at the head of `s`. -/
def datePatAt (s : List Char) : Bool :=
  match s with
  | d1 :: d2 :: sep :: y1 :: y2 :: y3 :: y4 :: rest =>
    d1.isDigit && d2.isDigit && decide (sep = '/') &&
    y1.isDigit && y2.isDigit && y3.isDigit && y4.isDigit &&
    (match rest with
     | [] => true
     | r :: _ => !isWordChar r)
  | _ => false

/-- Scan for `\b\d{2}/\d{4}\b`. -/
def scanDate (prev : Option Char) : List Char → Bool
  | [] => false
  | c :: rest =>
    (wordBoundaryBefore prev && datePatAt (c :: rest)) || scanDate (some c) rest

/-- The exchange-code alternation `(ROS|BAHIA|CHICAGO|MATBA|CBOT)` of
`_looks_like_future`: a plain case-insensitive substring search (no word
boundaries in the source pattern). -/
def exchangeTok (s : List Char) : Bool :=
  ["ros".data, "bahia".data, "chicago".data, "matba".data, "cbot".data].any
    (fun t => containsSeq t (pyLower s))

/-- `_looks_like_future` from `app/main_backup16102025OKDef9.py`. -/
def _looks_like_future (name : String) : Bool :=
  if name.data = [] then false
  else scanMonth none name.data || scanDate none name.data || exchangeTok name.data

/-- Overwrite-or-append assignment on an association list: the semantics of
`d[k] = v` on a Python dict. -/
def setAssoc {α : Type} (k : String) (v : α) :
    List (String × α) → List (String × α)
  | [] => [(k, v)]
  | (k1, v1) :: rest => if k1 = k then (k1, v) :: rest else (k1, v1) :: setAssoc k v rest

/-- First lookup on an association list: `d.get(k)`. -/
def lookupAssoc {α : Type} (k : String) : List (String × α) → Option α
  | [] => none
  | (k1, v1) :: rest => if k1 = k then some v1 else lookupAssoc k rest

/-- `_cache_set` from `app/main_backup16102025OKDef9.py`: stamp the entry
with the current time and overwrite unconditionally. -/
def _cache_set (c : List (String × (ℚ × List Item))) (k : String) (now : ℚ)
    (items : List Item) : List (String × (ℚ × List Item)) :=
  setAssoc k (now, items) c

/-- The scheduler's process state: the `_CACHE` map and the `_SCHEDULERS`
map of armed timers, each timer recorded as (delay in seconds, the
`interval_min` the re-armed job will run with). -/
structure SchedState where
  cache : List (String × (ℚ × List Item))
  timers : List (String × (Nat × Nat))
deriving DecidableEq, Repr

/-- `_schedule_job` from `app/main_backup16102025OKDef9.py`: run the scrape
(outcome given by `scrapeOutcome`), on success write both cache keys
(`plaza|ob=1` filtered of forward-contract rows, `plaza|ob=0` unfiltered);
any exception is swallowed by the bare `except: pass`; then — on every path
— arm a fresh `threading.Timer(interval_min * 60, _schedule_job, ...)` for
the same section and interval. -/
def _schedule_job (plaza_norm : String) (interval_min : Nat)
    (scrapeOutcome : Except String (List Item)) (now : ℚ)
    (st : SchedState) : SchedState :=
  let cache1 :=
    match scrapeOutcome with
    | Except.ok items =>
      _cache_set
        (_cache_set st.cache (plaza_norm ++ "|ob=1") now
          (items.filter (fun it => !_looks_like_future it.producto)))
        (plaza_norm ++ "|ob=0") now items
    | Except.error _ => st.cache
  ⟨cache1, setAssoc plaza_norm (interval_min * 60, interval_min) st.timers⟩

theorem lookupAssoc_set_same {α : Type} (k : String) (v : α) :
    ∀ m, lookupAssoc k (setAssoc k v m) = some v := by
  intro m
  induction m with
  | nil => simp [setAssoc, lookupAssoc]
  | cons hd rest ih =>
    obtain ⟨k1, v1⟩ := hd
    by_cases hkk : k1 = k
    · simp [setAssoc, lookupAssoc, hkk]
    · simp [setAssoc, lookupAssoc, hkk, ih]

theorem lookupAssoc_set_other {α : Type} {k k' : String} (hne : k' ≠ k) (v : α) :
    ∀ m, lookupAssoc k (setAssoc k' v m) = lookupAssoc k m := by
  intro m
  induction m with
  | nil => simp [setAssoc, lookupAssoc, hne]
  | cons hd rest ih =>
    obtain ⟨k1, v1⟩ := hd
    have hne2 : ¬ k = k' := fun h => hne h.symm
    by_cases hkk : k1 = k'
    · have hk1k : ¬ k1 = k := by
        rw [hkk]
        exact hne
      simp [setAssoc, lookupAssoc, hkk, hk1k, hne]
    · by_cases hk1 : k1 = k
      · simp [setAssoc, lookupAssoc, hkk, hk1, hne2]
      · simp [setAssoc, lookupAssoc, hkk, hk1, ih]

theorem obKeys_ne (p : String) : p ++ "|ob=1" ≠ p ++ "|ob=0" := by
  intro h
  have hd := congrArg String.data h
  rw [String.data_append, String.data_append] at hd
  have := List.append_cancel_left hd
  simp at this

/-- C8: one scheduled run writes the scrape result to the cache under both
filter keys exactly when the pipeline succeeds, leaves the cache untouched
when the pipeline raises (the exception is caught), and in EVERY case —
success or failure — re-arms a timer for the same section firing after
`interval_min * 60` seconds with the same interval, so one failing run never
cancels future runs. -/
theorem schedule_job_always_rearms (plaza : String) (interval_min : Nat)
    (outcome : Except String (List Item)) (now : ℚ) (st : SchedState) :
    (lookupAssoc plaza (_schedule_job plaza interval_min outcome now st).timers =
      some (interval_min * 60, interval_min)) ∧
    (∀ items, outcome = Except.ok items →
      lookupAssoc (plaza ++ "|ob=0")
          (_schedule_job plaza interval_min outcome now st).cache =
        some (now, items) ∧
      lookupAssoc (plaza ++ "|ob=1")
          (_schedule_job plaza interval_min outcome now st).cache =
        some (now, items.filter (fun it => !_looks_like_future it.producto))) ∧
    (∀ e, outcome = Except.error e →
      (_schedule_job plaza interval_min outcome now st).cache = st.cache) := by
  refine ⟨?_, ?_, ?_⟩
  · unfold _schedule_job
    exact lookupAssoc_set_same _ _ _
  · intro items ho
    subst ho
    unfold _schedule_job _cache_set
    constructor
    · exact lookupAssoc_set_same _ _ _
    · rw [lookupAssoc_set_other (obKeys_ne plaza).symm]
      exact lookupAssoc_set_same _ _ _
  · intro e ho
    subst ho
    rfl

/-- C8 witness: a successful run caches both keys and re-arms; the theorem
applied to a one-row scrape and to a failing scrape. -/
theorem schedule_job_always_rearms_witness :
    (lookupAssoc "rosario"
        (_schedule_job "rosario" 1440
          (Except.ok [⟨"Trigo", some (mkRat 1 1), Currency.ARS, "s/c", "s/c"⟩])
          (mkRat 0 1) ⟨[], []⟩).timers = some (86400, 1440)) ∧
    (lookupAssoc "rosario"
        (_schedule_job "rosario" 1440 (Except.error "Timeout")
          (mkRat 0 1) ⟨[], []⟩).timers = some (86400, 1440)) ∧
    (_schedule_job "rosario" 1440 (Except.error "Timeout")
        (mkRat 0 1) ⟨[], []⟩).cache = [] := by
  refine ⟨?_, ?_, ?_⟩
  · exact (schedule_job_always_rearms "rosario" 1440
      (Except.ok [⟨"Trigo", some (mkRat 1 1), Currency.ARS, "s/c", "s/c"⟩])
      (mkRat 0 1) ⟨[], []⟩).1
  · exact (schedule_job_always_rearms "rosario" 1440 (Except.error "Timeout")
      (mkRat 0 1) ⟨[], []⟩).1
  · exact (schedule_job_always_rearms "rosario" 1440 (Except.error "Timeout")
      (mkRat 0 1) ⟨[], []⟩).2.2 "Timeout" rfl

/-- Exact rational subtraction written through `mkRat` (definitionally equal
to `a - b`; spelled this way so that concrete instances reduce inside the
kernel). -/
def ratSub (a b : ℚ) : ℚ :=
  mkRat (a.num * b.den - b.num * a.den) (a.den * b.den)

theorem ratSub_eq_sub (a b : ℚ) : ratSub a b = a - b := by
  unfold ratSub
  rw [Rat.sub_def, Rat.normalize_eq_mkRat]

/-- `CACHE_MAX_AGE_MIN = 1440` (24 hours) from `app/main_backup01102025.py`. -/
def CACHE_MAX_AGE_MIN : ℚ :=
  mkRat 1440 1

/-- One section's entry of the module-level `CACHE` of
`app/main_backup01102025.py`: the last good item list and its fetch
timestamp (in minutes; `none` before the first successful scrape, also
standing for an unparseable stored timestamp). -/
structure CacheEntry where
  items : List Item
  fetched_at : Option ℚ
deriving DecidableEq, Repr

/-- The response body of `/api/cotizaciones` (the fields the claim is about;
`source_url` is a constant and `debug` is omitted).  `cached = false` and
`error = none` stand for the absent JSON fields. -/
structure Payload where
  items : List Item
  plaza : String
  cached : Bool
  error : Option String
deriving DecidableEq, Repr

/-- `api_cotizaciones` from `app/main_backup01102025.py`, for an
already-normalized section name.  `outcome` is the result of
`dedupe_and_sort(scrape_items(SOURCE_URL)[plaza], only_base)` — the final
item list, or the exception the scrape raised.  On success the cache entry
is overwritten and stamped; on failure the cache is read back: if it holds a
non-empty item list with a timestamp no older than `max_age_min` minutes,
those items are served with `cached = true` and the error string; otherwise
an empty list with the error string.  Every path returns a 200 payload. -/
def cacheFresh (cache : CacheEntry) (now max_age_min : ℚ) : Prop :=
  cache.items ≠ [] ∧
    match cache.fetched_at with
    | some ts => ratSub now ts ≤ max_age_min
    | none => False

instance cacheFresh.dec (cache : CacheEntry) (now max_age_min : ℚ) :
    Decidable (cacheFresh cache now max_age_min) := by
  obtain ⟨items, fa⟩ := cache
  unfold cacheFresh
  cases fa <;> exact inferInstance

def api_cotizaciones (plaza : String) (outcome : Except String (List Item))
    (cache : CacheEntry) (now : ℚ) (max_age_min : ℚ) : Payload × CacheEntry :=
  match outcome with
  | Except.ok items => (⟨items, plaza, false, none⟩, ⟨items, some now⟩)
  | Except.error e =>
    if cacheFresh cache now max_age_min then (⟨cache.items, plaza, true, some e⟩, cache)
    else (⟨[], plaza, false, some e⟩, cache)

/-- C1: when the scrape raises and the cache holds a non-empty entry whose
age is within the 24-hour staleness ceiling, the endpoint returns the cached
items with `cached = true` and a populated error field; when no
recent-enough entry exists it returns an empty item list plus the error
string; and on every failure the caller still receives a well-formed payload
(cached-items-or-empty, error always populated) rather than a hard failure. -/
theorem cotizaciones_fallback (plaza : String) (e : String) (cache : CacheEntry)
    (now : ℚ) :
    (∀ ts : ℚ, cache.items ≠ [] → cache.fetched_at = some ts →
      ratSub now ts ≤ CACHE_MAX_AGE_MIN →
      api_cotizaciones plaza (Except.error e) cache now CACHE_MAX_AGE_MIN =
        (⟨cache.items, plaza, true, some e⟩, cache)) ∧
    (¬ cacheFresh cache now CACHE_MAX_AGE_MIN →
      api_cotizaciones plaza (Except.error e) cache now CACHE_MAX_AGE_MIN =
        (⟨[], plaza, false, some e⟩, cache)) ∧
    ((api_cotizaciones plaza (Except.error e) cache now CACHE_MAX_AGE_MIN).1.error =
        some e ∧
      ((api_cotizaciones plaza (Except.error e) cache now CACHE_MAX_AGE_MIN).1.items =
          cache.items ∧
        (api_cotizaciones plaza (Except.error e) cache now CACHE_MAX_AGE_MIN).1.cached =
          true ∨
        (api_cotizaciones plaza (Except.error e) cache now CACHE_MAX_AGE_MIN).1.items =
          [])) := by
  refine ⟨?_, ?_, ?_⟩
  · intro ts hne hts hage
    have hfresh : cacheFresh cache now CACHE_MAX_AGE_MIN := by
      refine ⟨hne, ?_⟩
      rw [hts]
      exact hage
    simp only [api_cotizaciones, if_pos hfresh]
  · intro hnot
    simp only [api_cotizaciones, if_neg hnot]
  · by_cases h : cacheFresh cache now CACHE_MAX_AGE_MIN
    · simp only [api_cotizaciones, if_pos h]
      exact ⟨trivial, Or.inl ⟨trivial, trivial⟩⟩
    · simp only [api_cotizaciones, if_neg h]
      exact ⟨trivial, Or.inr trivial⟩

/-- C1 witness: the spec's end-to-end scenario — fetch fails, the cache
holds a 10-minute-old entry, staleness ceiling 24 hours: the cached items
come back with `cached = true` and the error populated; with an empty cache
the same failure yields an empty list plus the error. -/
theorem cotizaciones_fallback_witness :
    api_cotizaciones "rosario" (Except.error "FetchError: timeout")
        ⟨[⟨"Trigo", some (mkRat 200000 1), Currency.ARS, "s/c", "s/c"⟩],
         some (mkRat 90 1)⟩
        (mkRat 100 1) CACHE_MAX_AGE_MIN =
      (⟨[⟨"Trigo", some (mkRat 200000 1), Currency.ARS, "s/c", "s/c"⟩],
        "rosario", true, some "FetchError: timeout"⟩,
       ⟨[⟨"Trigo", some (mkRat 200000 1), Currency.ARS, "s/c", "s/c"⟩],
        some (mkRat 90 1)⟩) ∧
    api_cotizaciones "rosario" (Except.error "FetchError: timeout")
        ⟨[], none⟩ (mkRat 100 1) CACHE_MAX_AGE_MIN =
      (⟨[], "rosario", false, some "FetchError: timeout"⟩, ⟨[], none⟩) := by
  constructor
  · exact (cotizaciones_fallback "rosario" "FetchError: timeout"
      ⟨[⟨"Trigo", some (mkRat 200000 1), Currency.ARS, "s/c", "s/c"⟩],
       some (mkRat 90 1)⟩ (mkRat 100 1)).1
      (mkRat 90 1) (by decide) rfl (by decide)
  · exact (cotizaciones_fallback "rosario" "FetchError: timeout"
      ⟨[], none⟩ (mkRat 100 1)).2.1 (by simp [cacheFresh])

end Pizarras
